import Mathlib

/-!
Shallow embedding of `biz/platforms/github/webhook_handler.py` from the
AI-Codereview-Gitlab repository, together with theorems settling claims
about diff-position mapping, review-text splitting, comment delivery and
push/pull-request change retrieval.

Strings are modelled as Lean `String` (lists of characters); the relevant
Python string/regex operations are reimplemented character by character.
HTTP calls are modelled as oracle functions supplied as parameters, and the
embedded operations return the sequence of outbound requests they would
issue together with call counts.
-/

namespace AICodeReview

/-- Python whitespace as used by `str.strip` and by the whitespace class of
the handler's regexes (space, tab, newline, carriage return, vertical tab,
form feed; restricted to the ASCII range, which is all the handler's inputs
use). -/
def isPyWs (c : Char) : Bool :=
  (c == ' ') || (c == '\t') || (c == '\n') || (c == '\r') || (c == '\x0b') || (c == '\x0c')

/-- `str.strip()` on a character list. -/
def pyStripList (cs : List Char) : List Char :=
  ((cs.dropWhile isPyWs).reverse.dropWhile isPyWs).reverse

/-- `str.strip()`. -/
def pyStrip (s : String) : String :=
  String.mk (pyStripList s.toList)

/-- Whether the character list `cs` starts with the pattern `ps`. -/
def startsWithChars : List Char → List Char → Bool
  | _, [] => true
  | [], _ :: _ => false
  | c :: cs, p :: ps => (c == p) && startsWithChars cs ps

/-- `str.startswith(pat)`. -/
def strStarts (s pat : String) : Bool :=
  startsWithChars s.toList pat.toList

/-- Split a character list at each newline character (the pieces do not
contain the separator). -/
def splitOnNl : List Char → List Char → List (List Char)
  | [], acc => [acc.reverse]
  | c :: rest, acc =>
    if c = '\n' then acc.reverse :: splitOnNl rest [] else splitOnNl rest (c :: acc)

/-- `str.splitlines()` on a character list, for strings whose only line
separator is the newline character (the handler never feeds it anything
else): like splitting on newline, but a trailing newline produces no final
empty piece and the empty string has no lines. -/
def pySplitLinesL (cs : List Char) : List (List Char) :=
  match cs with
  | [] => []
  | _ :: _ =>
    let parts := splitOnNl cs []
    if cs.getLast? = some '\n' then parts.dropLast else parts

/-- `str.splitlines()`. -/
def pySplitLines (s : String) : List String :=
  (pySplitLinesL s.toList).map String.mk

/-- Consume one expected character. -/
def expectChar (c : Char) : List Char → Option (List Char)
  | x :: rest => if x = c then some rest else none
  | [] => none

/-- Numeric value of a run of ASCII digits. -/
def digitsVal (ds : List Char) : Nat :=
  ds.foldl (fun acc d => acc * 10 + (d.toNat - 48)) 0

/-- Consume one-or-more ASCII digits (a `\d+` of the hunk-header regex),
returning their value and the rest. -/
def takeDigits1 (cs : List Char) : Option (Nat × List Char) :=
  let ds := cs.takeWhile Char.isDigit
  if ds.isEmpty then none else some (digitsVal ds, cs.dropWhile Char.isDigit)

/-- Consume the optional comma-count group of the hunk-header regex.  When a
comma is present the digits after it are mandatory, exactly as the regex
behaves (with or without the optional group, a bare comma could never be
followed by the literal that comes next). -/
def skipOptComma : List Char → Option (List Char)
  | ',' :: rest => (takeDigits1 rest).map Prod.snd
  | cs => some cs

/-- The hunk-header match of `_extract_comment_lines_from_diff`
(`re.match` on pattern `@@ -\d+(?:,\d+)? \+(\d+)(?:,\d+)? @@`), returning
the captured new-start line number on success.  A prefix match: trailing
text after the closing marker is allowed. -/
def parseHunkHeader (line : String) : Option Nat := do
  let cs := line.toList
  let cs ← expectChar '@' cs
  let cs ← expectChar '@' cs
  let cs ← expectChar ' ' cs
  let cs ← expectChar '-' cs
  let (_, cs) ← takeDigits1 cs
  let cs ← skipOptComma cs
  let cs ← expectChar ' ' cs
  let cs ← expectChar '+' cs
  let (n, cs) ← takeDigits1 cs
  let cs ← skipOptComma cs
  let cs ← expectChar ' ' cs
  let cs ← expectChar '@' cs
  let _ ← expectChar '@' cs
  pure n

/-- The line scan of `PullRequestHandler._extract_comment_lines_from_diff`:
the state is the running new-file line counter, `none` while unknown
(before the first hunk header, or after a malformed one). -/
def extractLoop : List String → Option Nat → List Nat
  | [], _ => []
  | l :: ls, cur =>
    if strStarts l "@@" then
      extractLoop ls (parseHunkHeader l)
    else
      match cur with
      | none => extractLoop ls none
      | some n =>
        if strStarts l "+" && !(strStarts l "+++") then
          n :: extractLoop ls (some (n + 1))
        else if strStarts l "-" && !(strStarts l "---") then
          extractLoop ls (some n)
        else
          extractLoop ls (some (n + 1))

/-- `PullRequestHandler._extract_comment_lines_from_diff`. -/
def extractCommentLinesFromDiff (diff : String) : List Nat :=
  if diff = "" then [] else extractLoop (pySplitLines diff) none

/-- Modelled from the spec's wording of the DiffPositionMapper: the cursor
transition for one scanned line — a hunk header resets the cursor to the
parsed new-start (unknown when malformed), a pure deletion leaves the
cursor unchanged, and every other line (addition or context) advances it. -/
def specStep (cur : Option Nat) (l : String) : Option Nat :=
  if strStarts l "@@" then parseHunkHeader l
  else
    match cur with
    | none => none
    | some n =>
      if strStarts l "-" && !(strStarts l "---") then some n
      else some (n + 1)

/-- The cursor value at the moment each line is scanned. -/
def counterTrace : List String → Option Nat → List (Option Nat)
  | [], _ => []
  | l :: ls, cur => cur :: counterTrace ls (specStep cur l)

/-- A line that gets recorded: an addition line (starts with a plus sign, is
not the `+++` file marker, and is not a hunk header). -/
def isRecordedLine (l : String) : Bool :=
  !(strStarts l "@@") && (strStarts l "+" && !(strStarts l "+++"))

/-- Modelled from the spec's wording of the DiffPositionMapper: the recorded
positions are exactly the addition lines, each paired with the value of the
running new-file counter at the moment that line is scanned; a line scanned
while the counter is unknown (after a malformed header) produces nothing. -/
def specNewLinePositions (diff : String) : List Nat :=
  if diff = "" then []
  else
    ((pySplitLines diff).zip (counterTrace (pySplitLines diff) none)).filterMap
      (fun p => if isRecordedLine p.1 then p.2 else none)


/-- Python truthiness of an optional string: `None` and the empty string
are falsy.  Used to model `a or b or ...` chains over `dict.get` results. -/
def truthyStr : Option String → Option String
  | some s => if s = "" then none else some s
  | none => none

/-- A raw change dictionary as consumed by
`PullRequestHandler._extract_review_positions`; absent keys are `none`. -/
structure Change where
  new_path : Option String := none
  filename : Option String := none
  old_path : Option String := none
  diff : Option String := none
  patch : Option String := none
deriving DecidableEq

/-- `change.get('new_path') or change.get('filename') or change.get('old_path')`. -/
def changePath (c : Change) : Option String :=
  match truthyStr c.new_path with
  | some p => some p
  | none =>
    match truthyStr c.filename with
    | some p => some p
    | none => truthyStr c.old_path

/-- `change.get('diff') or change.get('patch') or ''`. -/
def changeDiff (c : Change) : String :=
  match truthyStr c.diff with
  | some d => d
  | none =>
    match truthyStr c.patch with
    | some d => d
    | none => ""

/-- One inline-comment anchor: a file path and a 1-based line number in the
new file version. -/
structure ReviewPosition where
  path : String
  line : Nat
deriving DecidableEq

/-- `PullRequestHandler._extract_review_positions`. -/
def extractReviewPositions : List Change → List ReviewPosition
  | [] => []
  | c :: cs =>
    match changePath c with
    | none => extractReviewPositions cs
    | some p =>
      ((extractCommentLinesFromDiff (changeDiff c)).map (fun n => ReviewPosition.mk p n))
        ++ extractReviewPositions cs

/-- The change of the spec's worked diff scenario. -/
def demoChange : Change :=
  { new_path := some "biz/demo.py",
    diff := some "@@ -1,2 +1,4 @@\nline1\n+line2\n+line3\n-line4" }


/-! ### ReviewTextSplitter: `PullRequestHandler._split_review_to_comments` -/

/-- The lowercase characters of the literal header marker. -/
def autoHeaderChars : List Char := "auto review result".toList

/-- Case-insensitively consume a lowercase pattern from the front of a
character list (ASCII case folding, which covers the letters of the
pattern). -/
def stripCI : List Char → List Char → Option (List Char)
  | [], cs => some cs
  | _ :: _, [] => none
  | p :: ps, c :: cs => if c.toLower = p then stripCI ps cs else none

/-- The `re.sub` of `_split_review_to_comments` removing a leading
`Auto Review Result:` marker (case-insensitive, anchored at the start,
colon either ASCII or full-width, followed by any whitespace which is also
removed).  When the pattern does not match, the text is unchanged. -/
def stripAutoHeader (text : String) : String :=
  let cs := text.toList
  match stripCI autoHeaderChars (cs.dropWhile isPyWs) with
  | none => text
  | some rest =>
    match rest with
    | [] => text
    | c :: rest2 =>
      if c = ':' || c = '：' then String.mk (rest2.dropWhile isPyWs) else text

/-- Characters of the first scoring-section keyword. -/
def scoreKw1 : List Char := "评分明细".toList

/-- Characters of the second scoring-section keyword. -/
def scoreKw2 : List Char := "总分".toList

/-- Whether the scoring-section pattern matches directly after an anchor
(start of text or a newline): any whitespace, at most six hash marks, any
whitespace, then one of the two keywords.  This is the deterministic
equivalent of the regex alternation with backtracking: the whitespace and
hash runs are maximal, and a run of more than six hash marks can never
match because the character after the sixth is neither whitespace nor a
keyword start. -/
def scoreAnchorMatch (cs : List Char) : Bool :=
  let cs1 := cs.dropWhile isPyWs
  let hs := cs1.takeWhile (fun c => c == '#')
  if 6 < hs.length then false
  else
    let cs3 := (cs1.dropWhile (fun c => c == '#')).dropWhile isPyWs
    startsWithChars cs3 scoreKw1 || startsWithChars cs3 scoreKw2

/-- Scan for the leftmost newline anchor from which the scoring-section
pattern matches, returning the index of that newline. -/
def findNlAnchor : List Char → Nat → Option Nat
  | [], _ => none
  | c :: rest, i =>
    if c = '\n' && scoreAnchorMatch rest then some i
    else findNlAnchor rest (i + 1)

/-- `re.search` for the scoring-section pattern: the match starts either at
position zero (the start-of-text anchor) or at a newline; the returned
index is `match.start()`, where the text is truncated. -/
def findScoreCut (text : String) : Option Nat :=
  let cs := text.toList
  if scoreAnchorMatch cs then some 0 else findNlAnchor cs 0

/-- Truncate the text before the scoring section when one is found, then
strip, exactly as `_split_review_to_comments` does. -/
def scoreTruncate (text : String) : String :=
  match findScoreCut text with
  | some p => pyStrip (String.mk (text.toList.take p))
  | none => text

/-- The bullet-marker match on one (already stripped, newline-free) line:
a dash, star or plus, then at least one whitespace character, then the
captured remainder.  The final branch mirrors the regex backtracking when
everything after the marker is whitespace: the mandatory whitespace class
gives one character back so the capture can take it (dead for stripped
lines, kept for fidelity). -/
def bulletCapture : List Char → Option (List Char)
  | [] => none
  | c :: rest =>
    if c = '-' || c = '*' || c = '+' then
      let ws := rest.takeWhile isPyWs
      let tl := rest.dropWhile isPyWs
      if ws.isEmpty then none
      else if !tl.isEmpty then some tl
      else if 2 ≤ ws.length then some [ws.getLastD ' ']
      else none
    else none

/-- The ordered-list-marker match on one (already stripped, newline-free)
line: one or more ASCII digits, then a period, an ideographic comma or a
closing parenthesis, then any whitespace, then the captured remainder.
The middle branch mirrors the regex backtracking when everything after the
punctuation is whitespace (dead for stripped lines, kept for fidelity). -/
def orderedCapture (cs : List Char) : Option (List Char) :=
  let ds := cs.takeWhile Char.isDigit
  if ds.isEmpty then none
  else
    match cs.dropWhile Char.isDigit with
    | [] => none
    | p :: rest2 =>
      if p = '.' || p = '、' || p = ')' then
        let tl := rest2.dropWhile isPyWs
        if !tl.isEmpty then some tl
        else if !rest2.isEmpty then some [rest2.getLastD ' ']
        else none
      else none

/-- The per-line extraction of the bullet loop: the stripped capture of the
bullet match, or else of the ordered match, or nothing. -/
def lineCapture (l : String) : Option String :=
  match bulletCapture l.toList with
  | some c => some (String.mk (pyStripList c))
  | none =>
    match orderedCapture l.toList with
    | some c => some (String.mk (pyStripList c))
    | none => none

/-- `[line.strip() for line in text.splitlines() if line.strip()]`. -/
def splitLinesStripped (text : String) : List String :=
  ((pySplitLines text).map pyStrip).filter (fun l => l ≠ "")

/-- Index of the last newline inside a whitespace run (meaningful when the
run contains one). -/
def lastNlIdx (run : List Char) : Nat :=
  run.length - 1 - (run.reverse.takeWhile (fun c => c ≠ '\n')).length

/-- `re.split` on the blank-line separator (newline, any whitespace,
newline): a separator match starts at a newline whose following maximal
whitespace run contains another newline, and extends through the last
newline of that run; scanning resumes after the match.  The recursion is
driven by a fuel argument so that it stays structural (each step consumes
at least one character, so any fuel of at least the text length never runs
out; the fuel-exhausted clause is unreachable from `splitBlankSep`). -/
def splitBlankSepFuel : Nat → List Char → List Char → List (List Char)
  | 0, cs, acc => [acc.reverse ++ cs]
  | _ + 1, [], acc => [acc.reverse]
  | fuel + 1, c :: rest, acc =>
    if c = '\n' then
      let run := rest.takeWhile isPyWs
      if run.contains '\n' then
        acc.reverse :: splitBlankSepFuel fuel (rest.drop (lastNlIdx run + 1)) []
      else splitBlankSepFuel fuel rest (c :: acc)
    else splitBlankSepFuel fuel rest (c :: acc)

/-- `re.split` on the blank-line separator, over a whole character list. -/
def splitBlankSep (cs : List Char) : List (List Char) :=
  splitBlankSepFuel (cs.length + 1) cs []

/-- Replace each maximal whitespace run with a single space
(`re.sub` with a one-or-more whitespace pattern); the flag records whether
the previous character was whitespace. -/
def collapseWsAux : List Char → Bool → List Char
  | [], _ => []
  | c :: rest, prevWs =>
    if isPyWs c then
      if prevWs then collapseWsAux rest true
      else ' ' :: collapseWsAux rest true
    else c :: collapseWsAux rest false

/-- Collapse internal whitespace runs to single spaces. -/
def collapseWs (cs : List Char) : List Char := collapseWsAux cs false

/-- The literal section titles skipped by the paragraph fallback. -/
def sectionTitles : List String := ["问题描述和优化建议", "问题描述", "优化建议"]

/-- The contribution of one paragraph block: strip it, drop it when it is
empty, a heading, or one of the literal section titles, and otherwise
collapse its internal whitespace. -/
def blockComment (b : List Char) : Option String :=
  if String.mk (pyStripList b) = "" then none
  else if strStarts (String.mk (pyStripList b)) "#" then none
  else if sectionTitles.contains (String.mk (pyStripList b)) then none
  else some (String.mk (collapseWs (pyStripList b)))

/-- The paragraph fallback of `_split_review_to_comments`: split on
blank-line boundaries and keep each block's contribution. -/
def blockComments (text : String) : List String :=
  (splitBlankSep text.toList).filterMap blockComment

/-- `PullRequestHandler._split_review_to_comments`.  The locals of the
source (`text` after the strips, the score-truncated text, the collected
bullet items) appear here as repeated applications. -/
def splitReviewToComments (reviewResult : String) : List String :=
  if reviewResult = "" then []
  else if stripAutoHeader (pyStrip reviewResult) = "" then []
  else if (splitLinesStripped (scoreTruncate (stripAutoHeader (pyStrip reviewResult)))).filterMap
      lineCapture ≠ [] then
    (splitLinesStripped (scoreTruncate (stripAutoHeader (pyStrip reviewResult)))).filterMap
      lineCapture
  else blockComments (scoreTruncate (stripAutoHeader (pyStrip reviewResult)))

/-! ### Comment delivery: `PullRequestHandler.add_pull_request_notes` -/

/-- Digit run with single underscores allowed between digits, as accepted
by Python `int` after the first digit. -/
def digitRun : List Char → Bool
  | [] => true
  | '_' :: d :: rest => d.isDigit && digitRun rest
  | '_' :: [] => false
  | c :: rest => c.isDigit && digitRun rest

/-- A valid unsigned digit part for Python `int`: starts with a digit,
then digits with single interior underscores. -/
def digitsOk : List Char → Bool
  | [] => false
  | c :: rest => c.isDigit && digitRun rest

/-- Numeric value of a digit part, ignoring underscores. -/
def digitsIntVal (cs : List Char) : Nat :=
  digitsVal (cs.filter (fun c => c ≠ '_'))

/-- Python `int(s)` restricted to ASCII decimal input: optional surrounding
whitespace, optional sign, then a digit part.  Returns `none` where Python
raises `ValueError`. -/
def pyParseInt (s : String) : Option Int :=
  match pyStripList s.toList with
  | '+' :: rest => if digitsOk rest then some (Int.ofNat (digitsIntVal rest)) else none
  | '-' :: rest => if digitsOk rest then some (-(Int.ofNat (digitsIntVal rest))) else none
  | rest => if digitsOk rest then some (Int.ofNat (digitsIntVal rest)) else none

/-- The comment list after the empty fallback of `add_pull_request_notes`:
when splitting yields nothing but the review text is non-empty, the whole
stripped text becomes the single comment. -/
def commentsWithDefault (reviewResult : String) : List String :=
  let c := splitReviewToComments reviewResult
  if c = [] && reviewResult ≠ "" then [pyStrip reviewResult] else c

/-- The capped comment list of `add_pull_request_notes`: the configured
maximum (environment value parsed as an integer, default 20 when absent or
invalid) is clamped below by one, and the comment list is truncated to that
many entries. -/
def cappedComments (reviewResult : String) (env : Option String) : List String :=
  (commentsWithDefault reviewResult).take
    (max 1 ((pyParseInt (env.getD "20")).getD 20)).toNat

/-- One delivered inline review comment (the payload of a POST to the
pull-request comments endpoint, plus the status code the oracle returned
for it). -/
structure InlinePost where
  body : String
  commit_id : String
  path : String
  line : Nat
  status : Nat
deriving DecidableEq

/-- Everything `add_pull_request_notes` sends: the inline posts in order,
and the bodies of the aggregate issue comments (the fallback path). -/
structure NotesOutcome where
  inlinePosts : List InlinePost
  issuePosts : List String
deriving DecidableEq

/-- Position used when indexing an empty position list (unreachable: the
inline loop only runs when the position list is non-empty). -/
def defaultPos : ReviewPosition := ReviewPosition.mk "" 0

/-- The delivery loop of `add_pull_request_notes`: comment `index` is paired
with `positions[index % len(positions)]`, tagged with the head commit id and
posted; the oracle `post` gives the status code of the delivery with that
index. -/
def inlineLoop (headSha : String) (post : Nat → Nat) (positions : List ReviewPosition) :
    List String → Nat → List InlinePost
  | [], _ => []
  | c :: rest, idx =>
    let pos := positions.getD (idx % positions.length) defaultPos
    InlinePost.mk c headSha pos.path pos.line (post idx)
      :: inlineLoop headSha post positions rest (idx + 1)

/-- `PullRequestHandler.add_pull_request_notes`.  `headSha` is
`webhook_data['pull_request']['head']['sha']` (absent keys give `none`),
`env` is the `GITHUB_PR_REVIEW_COMMENT_MAX_COUNT` environment variable, and
`post` is the HTTP oracle giving the status code of each inline delivery. -/
def addPullRequestNotes (reviewResult : String) (changes : List Change)
    (headSha : Option String) (env : Option String) (post : Nat → Nat) : NotesOutcome :=
  if commentsWithDefault reviewResult = [] then NotesOutcome.mk [] []
  else if truthyStr headSha = none ∨ extractReviewPositions changes = [] then
    NotesOutcome.mk [] [reviewResult]
  else
    if (inlineLoop ((truthyStr headSha).getD "") post (extractReviewPositions changes)
          (cappedComments reviewResult env) 0).countP (fun p => p.status = 201) = 0 then
      NotesOutcome.mk
        (inlineLoop ((truthyStr headSha).getD "") post (extractReviewPositions changes)
          (cappedComments reviewResult env) 0) [reviewResult]
    else
      NotesOutcome.mk
        (inlineLoop ((truthyStr headSha).getD "") post (extractReviewPositions changes)
          (cappedComments reviewResult env) 0) []

/-! ### Remote change retrieval -/

/-- One entry of the GitHub list-files response. -/
structure GhFile where
  filename : Option String := none
  patch : Option String := none
  additions : Nat := 0
  deletions : Nat := 0
deriving DecidableEq

/-- A GitLab-format change as built by `get_pull_request_changes`. -/
structure PrChange where
  old_path : Option String
  new_path : Option String
  diff : String
  additions : Nat
  deletions : Nat
deriving DecidableEq

/-- The per-file conversion of `get_pull_request_changes` (the `patch` field
defaults to the empty string when absent). -/
def convertFile (f : GhFile) : PrChange :=
  PrChange.mk f.filename f.filename (f.patch.getD "") f.additions f.deletions

/-- One response of the list-files endpoint. -/
structure FilesResponse where
  status : Nat
  files : List GhFile
deriving DecidableEq

/-- Observable result of `get_pull_request_changes`: the returned change
list, the number of list-files calls made, and the total units slept. -/
structure PrFetchResult where
  changes : List PrChange
  calls : Nat
  sleeps : Nat
deriving DecidableEq

/-- The retry loop of `get_pull_request_changes`: `attempt` is the 0-based
attempt index fed to the response oracle, `remaining` the attempts left.  A
success with files returns the converted list at once; a success with no
files sleeps ten units and retries; a non-success aborts with the empty
list; exhausted retries return the empty list. -/
def prChangesLoop (resp : Nat → FilesResponse) : Nat → Nat → PrFetchResult
  | _, 0 => PrFetchResult.mk [] 0 0
  | attempt, r + 1 =>
    if (resp attempt).status = 200 then
      if (resp attempt).files ≠ [] then
        PrFetchResult.mk ((resp attempt).files.map convertFile) 1 0
      else
        PrFetchResult.mk (prChangesLoop resp (attempt + 1) r).changes
          ((prChangesLoop resp (attempt + 1) r).calls + 1)
          ((prChangesLoop resp (attempt + 1) r).sleeps + 10)
    else PrFetchResult.mk [] 1 0

/-- `PullRequestHandler.get_pull_request_changes` (the event type is always
`pull_request` by construction, so the guard at the top never fires);
`max_retries = 3`, `retry_delay = 10`. -/
def getPullRequestChanges (resp : Nat → FilesResponse) : PrFetchResult :=
  prChangesLoop resp 0 3

/-- One raw commit payload of a push event (only the `id` key matters to
`get_push_changes`). -/
structure PushCommit where
  id : Option String := none
deriving DecidableEq

/-- The push webhook fields consumed by `get_push_changes`, with the
defaults `dict.get` supplies for absent keys. -/
structure PushEvent where
  commits : List PushCommit := []
  before : String := ""
  after : String := ""
  created : Bool := false
  deleted : Bool := false
deriving DecidableEq

/-- Observable result of `get_push_changes`: the returned change list, the
number of compare-refs calls and the number of single-commit (parent)
lookups. -/
structure PushFetchResult where
  changes : List Change
  compareCalls : Nat
  parentCalls : Nat
deriving DecidableEq

/-- The per-commit fallback of `get_push_changes` (used when `before` or
`after` is missing): for each commit with a truthy id, look up its parent;
when the parent resolves, compare parent against the commit and concatenate
the results. -/
def pushPerCommit (parentOf : String → String) (compareFn : String → String → List Change) :
    List PushCommit → PushFetchResult
  | [] => PushFetchResult.mk [] 0 0
  | c :: rest =>
    match truthyStr c.id with
    | none => pushPerCommit parentOf compareFn rest
    | some cid =>
      let p := parentOf cid
      let tail := pushPerCommit parentOf compareFn rest
      if p ≠ "" then
        PushFetchResult.mk (compareFn p cid ++ tail.changes)
          (tail.compareCalls + 1) (tail.parentCalls + 1)
      else PushFetchResult.mk tail.changes tail.compareCalls (tail.parentCalls + 1)

/-- `PushHandler.get_push_changes` (the event type is always `push` by
construction).  `parentOf` is the oracle for `get_parent_commit_id` (empty
string when unresolvable) and `compareFn` for `repository_compare`.  Note
the branch order of the source: with truthy `before` and `after`, the
`created` branch is checked first and still issues a compare; `deleted` is
only reached when `created` is false; and without truthy `before`/`after`
the per-commit fallback runs regardless of the flags. -/
def getPushChanges (e : PushEvent) (parentOf : String → String)
    (compareFn : String → String → List Change) : PushFetchResult :=
  if e.commits = [] then PushFetchResult.mk [] 0 0
  else if e.before ≠ "" ∧ e.after ≠ "" then
    if e.created then
      match truthyStr ((e.commits.headD (PushCommit.mk none)).id) with
      | some fid =>
        if parentOf fid ≠ "" then PushFetchResult.mk (compareFn (parentOf fid) e.after) 1 1
        else PushFetchResult.mk (compareFn e.before e.after) 1 1
      | none => PushFetchResult.mk (compareFn e.before e.after) 1 0
    else if e.deleted then PushFetchResult.mk [] 0 0
    else PushFetchResult.mk (compareFn e.before e.after) 1 0
  else pushPerCommit parentOf compareFn e.commits

/-! ## Theorems -/

theorem strStarts_plus_not_minus (l : String) (h : strStarts l "+" = true) :
    strStarts l "-" = false := by
  unfold strStarts at h ⊢
  cases hl : l.toList with
  | nil => rw [hl] at h; exact absurd h (by decide)
  | cons c cs =>
    rw [hl] at h
    have hc : c = '+' := by
      have h3 : startsWithChars (c :: cs) ['+'] = true := h
      simp only [startsWithChars, Bool.and_eq_true, beq_iff_eq] at h3
      exact h3.1
    subst hc
    show (('+' == '-') && startsWithChars cs []) = false
    rw [show (('+' == '-') : Bool) = false from rfl]
    exact Bool.false_and _

theorem extractLoop_eq_spec (ls : List String) :
    ∀ cur, extractLoop ls cur =
      (ls.zip (counterTrace ls cur)).filterMap
        (fun p => if isRecordedLine p.1 then p.2 else none) := by
  induction ls with
  | nil => intro cur; rfl
  | cons l ls ih =>
    intro cur
    rw [counterTrace, List.zip_cons_cons, List.filterMap_cons]
    by_cases hat : strStarts l "@@" = true
    · have hrec : isRecordedLine l = false := by
        simp [isRecordedLine, hat]
      have hstep : specStep cur l = parseHunkHeader l := by
        simp only [specStep, hat, eq_self_iff_true, if_true]
      simp only [extractLoop, hat, eq_self_iff_true, if_true, hrec, Bool.false_eq_true,
        if_false, hstep, ih]
    · have hat' : strStarts l "@@" = false := by
        simp only [Bool.not_eq_true] at hat
        exact hat
      match cur with
      | none =>
        have hstep : specStep none l = none := by
          simp only [specStep, hat', Bool.false_eq_true, if_false]
        simp only [extractLoop, hat', Bool.false_eq_true, if_false, hstep, ih, ite_self]
      | some n =>
        by_cases hplus : (strStarts l "+" && !(strStarts l "+++")) = true
        · have hrec : isRecordedLine l = true := by
            simp only [isRecordedLine, hat', Bool.not_false, Bool.true_and]
            exact hplus
          have hminus : (strStarts l "-" && !(strStarts l "---")) = false := by
            have h1 : strStarts l "+" = true := by
              have h2 := hplus
              simp only [Bool.and_eq_true] at h2
              exact h2.1
            rw [strStarts_plus_not_minus l h1, Bool.false_and]
          have hstep : specStep (some n) l = some (n + 1) := by
            simp only [specStep, hat', hminus, Bool.false_eq_true, if_false]
          simp only [extractLoop, hat', Bool.false_eq_true, if_false, hplus,
            eq_self_iff_true, if_true, hrec, hstep, ih]
        · have hplus' : (strStarts l "+" && !(strStarts l "+++")) = false := by
            simp only [Bool.not_eq_true] at hplus
            exact hplus
          have hrec : isRecordedLine l = false := by
            simp only [isRecordedLine, hat', Bool.not_false, Bool.true_and]
            exact hplus'
          by_cases hminus : (strStarts l "-" && !(strStarts l "---")) = true
          · have hstep : specStep (some n) l = some n := by
              simp only [specStep, hat', hminus, Bool.false_eq_true, if_false,
                eq_self_iff_true, if_true]
            simp only [extractLoop, hat', hplus', Bool.false_eq_true, if_false, hminus,
              eq_self_iff_true, if_true, hrec, hstep, ih]
          · have hminus' : (strStarts l "-" && !(strStarts l "---")) = false := by
              simp only [Bool.not_eq_true] at hminus
              exact hminus
            have hstep : specStep (some n) l = some (n + 1) := by
              simp only [specStep, hat', hminus', Bool.false_eq_true, if_false]
            simp only [extractLoop, hat', hplus', hminus', Bool.false_eq_true, if_false,
              hrec, hstep, ih]

/-- C1: `_extract_comment_lines_from_diff` records exactly the addition
lines, each at the value of the running new-file counter at the moment the
line is scanned; the counter resets to the parsed new-start at each
well-formed hunk header, deletions leave it unchanged and produce nothing,
context lines advance it without being recorded, and no positions are
produced while the counter is unknown (after a malformed header, until the
next well-formed one).  The spec's worked diff for `biz/demo.py` yields the
positions 2 and 3, and an empty or malformed diff yields the empty
sequence. -/
theorem c1_diff_position_mapping :
    (∀ diff, extractCommentLinesFromDiff diff = specNewLinePositions diff) ∧
    extractReviewPositions [demoChange]
      = [ReviewPosition.mk "biz/demo.py" 2, ReviewPosition.mk "biz/demo.py" 3] ∧
    extractCommentLinesFromDiff "" = [] ∧
    extractCommentLinesFromDiff "@@ malformed @@\n+line2\n+line3" = [] := by
  refine ⟨fun diff => ?_, by decide, rfl, by decide⟩
  unfold extractCommentLinesFromDiff specNewLinePositions
  by_cases h : diff = ""
  · rw [if_pos h, if_pos h]
  · rw [if_neg h, if_neg h]
    exact extractLoop_eq_spec _ _

theorem cappedComments_ne_nil (r : String) (env : Option String)
    (h : commentsWithDefault r ≠ []) : cappedComments r env ≠ [] := by
  unfold cappedComments
  rw [Ne, List.take_eq_nil_iff]
  push_neg
  refine ⟨?_, h⟩
  have h1 : (1 : Int) ≤ max 1 ((pyParseInt (env.getD "20")).getD 20) := le_max_left _ _
  have h2 := Int.toNat_le_toNat h1
  simp only [Int.toNat_one] at h2
  omega

theorem inlineLoop_eq_enumFrom (sha : String) (post : Nat → Nat)
    (positions : List ReviewPosition) (comments : List String) :
    ∀ start, inlineLoop sha post positions comments start =
      (List.enumFrom start comments).map (fun pr =>
        InlinePost.mk pr.2 sha
          (positions.getD (pr.1 % positions.length) defaultPos).path
          (positions.getD (pr.1 % positions.length) defaultPos).line
          (post pr.1)) := by
  induction comments with
  | nil => intro start; rfl
  | cons c rest ih =>
    intro start
    simp only [inlineLoop, List.enumFrom_cons, List.map_cons, ih]

/-- C2: with a non-empty comment list, `add_pull_request_notes` takes the
aggregate issue-comment fallback — one post of the whole original review
text and zero inline deliveries — exactly when the event's head commit sha
is absent (or empty, which Python treats the same) or the position list
computed from the changes is empty. -/
theorem c2_aggregate_fallback_iff (reviewResult : String) (changes : List Change)
    (headSha : Option String) (env : Option String) (post : Nat → Nat)
    (h : commentsWithDefault reviewResult ≠ []) :
    ((addPullRequestNotes reviewResult changes headSha env post).inlinePosts = [] ∧
      (addPullRequestNotes reviewResult changes headSha env post).issuePosts = [reviewResult])
      ↔ (truthyStr headSha = none ∨ extractReviewPositions changes = []) := by
  unfold addPullRequestNotes
  rw [if_neg h]
  by_cases hcond : truthyStr headSha = none ∨ extractReviewPositions changes = []
  · rw [if_pos hcond]
    exact iff_of_true ⟨rfl, rfl⟩ hcond
  · rw [if_neg hcond]
    have hcomm : cappedComments reviewResult env ≠ [] := cappedComments_ne_nil _ _ h
    have hloop : inlineLoop ((truthyStr headSha).getD "") post (extractReviewPositions changes)
        (cappedComments reviewResult env) 0 ≠ [] := by
      cases hc : cappedComments reviewResult env with
      | nil => exact absurd hc hcomm
      | cons a rest => simp [inlineLoop]
    by_cases hcnt : (inlineLoop ((truthyStr headSha).getD "") post
        (extractReviewPositions changes)
        (cappedComments reviewResult env) 0).countP (fun p => p.status = 201) = 0
    · rw [if_pos hcnt]
      exact iff_of_false (fun hh => hloop hh.1) hcond
    · rw [if_neg hcnt]
      exact iff_of_false (fun hh => hloop hh.1) hcond

/-- Witness for C2 at a concrete input: a one-comment review with no head
sha falls back to a single aggregate comment. -/
theorem c2_aggregate_fallback_iff_witness :
    commentsWithDefault "hi" ≠ [] ∧
    (((addPullRequestNotes "hi" [] none none (fun _ => 0)).inlinePosts = [] ∧
       (addPullRequestNotes "hi" [] none none (fun _ => 0)).issuePosts = ["hi"])
      ↔ (truthyStr (none : Option String) = none ∨ extractReviewPositions [] = [])) :=
  ⟨by decide, c2_aggregate_fallback_iff "hi" [] none none (fun _ => 0) (by decide)⟩

/-- C3: in inline delivery (head sha present, positions non-empty), the
delivered posts carry exactly the capped comments in order, and the post of
index `i` is anchored at position `i mod len(positions)` — positions wrap
around instead of comments being dropped. -/
theorem c3_position_wraparound (reviewResult : String) (changes : List Change)
    (sha : String) (env : Option String) (post : Nat → Nat)
    (hsha : sha ≠ "") (hpos : extractReviewPositions changes ≠ []) :
    (addPullRequestNotes reviewResult changes (some sha) env post).inlinePosts
      = (cappedComments reviewResult env).enum.map (fun pr =>
          InlinePost.mk pr.2 sha
            ((extractReviewPositions changes).getD
              (pr.1 % (extractReviewPositions changes).length) defaultPos).path
            ((extractReviewPositions changes).getD
              (pr.1 % (extractReviewPositions changes).length) defaultPos).line
            (post pr.1)) ∧
    (addPullRequestNotes reviewResult changes (some sha) env post).inlinePosts.length
      = (cappedComments reviewResult env).length := by
  have hloop := inlineLoop_eq_enumFrom sha post (extractReviewPositions changes)
    (cappedComments reviewResult env) 0
  have htr : truthyStr (some sha) = some sha := by
    show (if sha = "" then none else some sha) = some sha
    rw [if_neg hsha]
  have hmain : (addPullRequestNotes reviewResult changes (some sha) env post).inlinePosts
      = inlineLoop sha post (extractReviewPositions changes)
          (cappedComments reviewResult env) 0 := by
    unfold addPullRequestNotes
    by_cases hc : commentsWithDefault reviewResult = []
    · rw [if_pos hc]
      have hcap : cappedComments reviewResult env = [] := by
        unfold cappedComments
        rw [hc, List.take_nil]
      rw [hcap]
      rfl
    · rw [if_neg hc]
      have hcond : ¬(truthyStr (some sha) = none ∨ extractReviewPositions changes = []) := by
        rw [htr]
        rintro (h1 | h1)
        · exact Option.some_ne_none sha h1
        · exact hpos h1
      rw [if_neg hcond]
      have hgetd : (truthyStr (some sha)).getD "" = sha := by rw [htr]; rfl
      rw [hgetd]
      by_cases hcnt : (inlineLoop sha post (extractReviewPositions changes)
          (cappedComments reviewResult env) 0).countP (fun p => p.status = 201) = 0
      · rw [if_pos hcnt]
      · rw [if_neg hcnt]
  constructor
  · rw [hmain, hloop, List.enum]
  · rw [hmain, hloop, List.length_map, List.enumFrom_length]

/-- Witness for C3 at the spec's 2-positions/5-comments scenario: the line
anchors used are, in order, positions 0,1,0,1,0 of the position list
(lines 2,3,2,3,2 of `biz/demo.py`). -/
theorem c3_position_wraparound_witness :
    (addPullRequestNotes "- a\n- b\n- c\n- d\n- e" [demoChange] (some "h") none
        (fun _ => 201)).inlinePosts.map (fun p => ReviewPosition.mk p.path p.line)
      = [ReviewPosition.mk "biz/demo.py" 2, ReviewPosition.mk "biz/demo.py" 3,
         ReviewPosition.mk "biz/demo.py" 2, ReviewPosition.mk "biz/demo.py" 3,
         ReviewPosition.mk "biz/demo.py" 2] := by
  have h := c3_position_wraparound "- a\n- b\n- c\n- d\n- e" [demoChange] "h" none
    (fun _ => 201) (by decide) (by decide)
  rw [h.1]
  decide

/-- C4: in inline delivery, when zero of the per-comment deliveries return
status 201 the whole original review text is posted as exactly one
aggregate issue comment; when at least one succeeded there is no fallback;
and in both cases every capped comment was delivered exactly once (failed
deliveries are not retried). -/
theorem c4_zero_success_fallback (reviewResult : String) (changes : List Change)
    (sha : String) (env : Option String) (post : Nat → Nat)
    (hc : commentsWithDefault reviewResult ≠ [])
    (hsha : sha ≠ "") (hpos : extractReviewPositions changes ≠ []) :
    ((addPullRequestNotes reviewResult changes (some sha) env post).inlinePosts.countP
        (fun p => p.status = 201) = 0 →
      (addPullRequestNotes reviewResult changes (some sha) env post).issuePosts
        = [reviewResult]) ∧
    ((addPullRequestNotes reviewResult changes (some sha) env post).inlinePosts.countP
        (fun p => p.status = 201) ≠ 0 →
      (addPullRequestNotes reviewResult changes (some sha) env post).issuePosts = []) ∧
    (addPullRequestNotes reviewResult changes (some sha) env post).inlinePosts.length
      = (cappedComments reviewResult env).length := by
  have htr : truthyStr (some sha) = some sha := by
    show (if sha = "" then none else some sha) = some sha
    rw [if_neg hsha]
  have hcond : ¬(truthyStr (some sha) = none ∨ extractReviewPositions changes = []) := by
    rw [htr]
    rintro (h1 | h1)
    · exact Option.some_ne_none sha h1
    · exact hpos h1
  have hgetd : (truthyStr (some sha)).getD "" = sha := by rw [htr]; rfl
  have hlen : (inlineLoop sha post (extractReviewPositions changes)
      (cappedComments reviewResult env) 0).length = (cappedComments reviewResult env).length := by
    rw [inlineLoop_eq_enumFrom, List.length_map, List.enumFrom_length]
  unfold addPullRequestNotes
  rw [if_neg hc, if_neg hcond, hgetd]
  by_cases hcnt : (inlineLoop sha post (extractReviewPositions changes)
      (cappedComments reviewResult env) 0).countP (fun p => p.status = 201) = 0
  · rw [if_pos hcnt]
    exact ⟨fun _ => rfl, fun hne => absurd hcnt hne, hlen⟩
  · rw [if_neg hcnt]
    exact ⟨fun h0 => absurd h0 hcnt, fun _ => rfl, hlen⟩

/-- Witness for C4 at a concrete input: all five deliveries fail (status
500), so the aggregate fallback carries the original review text. -/
theorem c4_zero_success_fallback_witness :
    (addPullRequestNotes "- a\n- b" [demoChange] (some "h") none
        (fun _ => 500)).inlinePosts.countP (fun p => p.status = 201) = 0 ∧
    (addPullRequestNotes "- a\n- b" [demoChange] (some "h") none
        (fun _ => 500)).issuePosts = ["- a\n- b"] ∧
    (addPullRequestNotes "- a\n- b" [demoChange] (some "h") none
        (fun _ => 201)).issuePosts = [] := by
  have h1 := c4_zero_success_fallback "- a\n- b" [demoChange] "h" none (fun _ => 500)
    (by decide) (by decide) (by decide)
  have h2 := c4_zero_success_fallback "- a\n- b" [demoChange] "h" none (fun _ => 201)
    (by decide) (by decide) (by decide)
  refine ⟨by decide, h1.1 (by decide), h2.2.1 (by decide)⟩

theorem prChangesLoop_zero (resp : Nat → FilesResponse) (attempt : Nat) :
    prChangesLoop resp attempt 0 = PrFetchResult.mk [] 0 0 := rfl

theorem prChangesLoop_ok_nonempty (resp : Nat → FilesResponse) (attempt r : Nat)
    (hs : (resp attempt).status = 200) (hf : (resp attempt).files ≠ []) :
    prChangesLoop resp attempt (r + 1)
      = PrFetchResult.mk ((resp attempt).files.map convertFile) 1 0 := by
  rw [prChangesLoop, if_pos hs, if_pos hf]

theorem prChangesLoop_ok_empty (resp : Nat → FilesResponse) (attempt r : Nat)
    (hs : (resp attempt).status = 200) (hf : (resp attempt).files = []) :
    prChangesLoop resp attempt (r + 1)
      = PrFetchResult.mk (prChangesLoop resp (attempt + 1) r).changes
          ((prChangesLoop resp (attempt + 1) r).calls + 1)
          ((prChangesLoop resp (attempt + 1) r).sleeps + 10) := by
  rw [prChangesLoop, if_pos hs, if_neg (fun hne => hne hf)]

theorem prChangesLoop_bad (resp : Nat → FilesResponse) (attempt r : Nat)
    (hs : (resp attempt).status ≠ 200) :
    prChangesLoop resp attempt (r + 1) = PrFetchResult.mk [] 1 0 := by
  rw [prChangesLoop, if_neg hs]

theorem prChangesLoop_calls_le (resp : Nat → FilesResponse) :
    ∀ r attempt, (prChangesLoop resp attempt r).calls ≤ r := by
  intro r
  induction r with
  | zero => intro attempt; exact Nat.le_refl 0
  | succ r ih =>
    intro attempt
    by_cases hs : (resp attempt).status = 200
    · by_cases hf : (resp attempt).files = []
      · rw [prChangesLoop_ok_empty resp attempt r hs hf]
        exact Nat.succ_le_succ (ih (attempt + 1))
      · rw [prChangesLoop_ok_nonempty resp attempt r hs hf]
        exact Nat.succ_le_succ (Nat.zero_le r)
    · rw [prChangesLoop_bad resp attempt r hs]
      exact Nat.succ_le_succ (Nat.zero_le r)

/-- C5: `get_pull_request_changes` makes at most three list-files calls; a
successful non-empty response returns the converted list at once (one
call); a non-success status aborts at once with the empty list and no
retry; a non-success on the second attempt stops after two calls and one
ten-unit sleep; three successful empty responses exhaust the retries with
three calls and thirty units slept, returning the empty list without an
error; and the spec's scenario — empty on the first two attempts, non-empty
on the third — makes exactly three calls with two sleeps and returns the
third response converted. -/
theorem c5_retry_on_empty :
    (∀ resp, (getPullRequestChanges resp).calls ≤ 3) ∧
    (∀ resp, (resp 0).status = 200 → (resp 0).files ≠ [] →
      getPullRequestChanges resp
        = PrFetchResult.mk ((resp 0).files.map convertFile) 1 0) ∧
    (∀ resp, (resp 0).status ≠ 200 → getPullRequestChanges resp = PrFetchResult.mk [] 1 0) ∧
    (∀ resp, (resp 0).status = 200 → (resp 0).files = [] → (resp 1).status ≠ 200 →
      getPullRequestChanges resp = PrFetchResult.mk [] 2 10) ∧
    (∀ resp, (∀ i, i < 3 → (resp i).status = 200 ∧ (resp i).files = []) →
      getPullRequestChanges resp = PrFetchResult.mk [] 3 30) ∧
    (∀ resp, (resp 0).status = 200 → (resp 0).files = [] →
      (resp 1).status = 200 → (resp 1).files = [] →
      (resp 2).status = 200 → (resp 2).files ≠ [] →
      getPullRequestChanges resp
        = PrFetchResult.mk ((resp 2).files.map convertFile) 3 20) := by
  refine ⟨fun resp => prChangesLoop_calls_le resp 3 0, ?_, ?_, ?_, ?_, ?_⟩
  · intro resp h0 hf0
    show prChangesLoop resp 0 (2 + 1) = _
    rw [prChangesLoop_ok_nonempty resp 0 2 h0 hf0]
  · intro resp h0
    show prChangesLoop resp 0 (2 + 1) = _
    rw [prChangesLoop_bad resp 0 2 h0]
  · intro resp h0 hf0 h1
    show prChangesLoop resp 0 (2 + 1) = _
    rw [prChangesLoop_ok_empty resp 0 2 h0 hf0,
      show prChangesLoop resp 1 2 = prChangesLoop resp 1 (1 + 1) from rfl,
      prChangesLoop_bad resp 1 1 h1]
  · intro resp hall
    have h0 := hall 0 (by omega)
    have h1 := hall 1 (by omega)
    have h2 := hall 2 (by omega)
    show prChangesLoop resp 0 (2 + 1) = _
    rw [prChangesLoop_ok_empty resp 0 2 h0.1 h0.2,
      show prChangesLoop resp 1 2 = prChangesLoop resp 1 (1 + 1) from rfl,
      prChangesLoop_ok_empty resp 1 1 h1.1 h1.2,
      show prChangesLoop resp 2 1 = prChangesLoop resp 2 (0 + 1) from rfl,
      prChangesLoop_ok_empty resp 2 0 h2.1 h2.2,
      prChangesLoop_zero resp 3]
  · intro resp h0 hf0 h1 hf1 h2 hf2
    show prChangesLoop resp 0 (2 + 1) = _
    rw [prChangesLoop_ok_empty resp 0 2 h0 hf0,
      show prChangesLoop resp 1 2 = prChangesLoop resp 1 (1 + 1) from rfl,
      prChangesLoop_ok_empty resp 1 1 h1 hf1,
      show prChangesLoop resp 2 1 = prChangesLoop resp 2 (0 + 1) from rfl,
      prChangesLoop_ok_nonempty resp 2 0 h2 hf2]

/-- The response oracle of the spec's retry scenario: empty success twice,
then one file. -/
def retryScenarioResp : Nat → FilesResponse := fun i =>
  if i < 2 then FilesResponse.mk 200 []
  else FilesResponse.mk 200 [{ filename := some "a.py", patch := some "@@ -1,1 +1,2 @@\n+x" }]

/-- Witness for C5: the retry scenario makes exactly three calls, sleeps
twice, and returns the third response converted. -/
theorem c5_retry_on_empty_witness :
    getPullRequestChanges retryScenarioResp
      = PrFetchResult.mk ((retryScenarioResp 2).files.map convertFile) 3 20 :=
  c5_retry_on_empty.2.2.2.2.2 retryScenarioResp (by decide) (by decide) (by decide)
    (by decide) (by decide) (by decide)

/-- A deleted-branch push event that nevertheless reaches the per-commit
comparison path, because its `before` field is empty. -/
def deletedPushEvent : PushEvent :=
  { commits := [{ id := some "c1" }], before := "", after := "x",
    created := false, deleted := true }

/-- Counterexample to C6 as stated: a push event
carrying `deleted: true` whose `before` is empty (so the compare branch is
never reached) still issues a compare-refs call through the per-commit
fallback and returns its result. -/
theorem c6_deleted_counterexample :
    deletedPushEvent.deleted = true ∧
    getPushChanges deletedPushEvent (fun _ => "p") (fun _ _ => [demoChange])
      = PushFetchResult.mk [demoChange] 1 1 := by
  constructor
  · rfl
  · decide

/-- C6 amended: a push event carrying `deleted: true` whose `before` and
`after` refs are both non-empty and whose `created` flag is false yields
the empty change list with zero compare-refs calls (and zero parent
lookups).  The restriction is forced by the code: `deleted` is tested only
inside the branch requiring truthy `before` and `after`, and after
`created`; a deleted event with an empty `before` falls into the
per-commit comparison path, and one with `created` also true takes the
created branch and issues a compare. -/
theorem c6_deleted_amended (e : PushEvent) (parentOf : String → String)
    (compareFn : String → String → List Change)
    (hdel : e.deleted = true) (hb : e.before ≠ "") (ha : e.after ≠ "")
    (hcr : e.created = false) :
    getPushChanges e parentOf compareFn = PushFetchResult.mk [] 0 0 := by
  unfold getPushChanges
  by_cases hne : e.commits = []
  · rw [if_pos hne]
  · rw [if_neg hne, if_pos (And.intro hb ha),
      if_neg (by rw [hcr]; exact Bool.false_ne_true), if_pos hdel]

/-- Witness for the amended C6 at a concrete deleted-branch event with
truthy refs. -/
theorem c6_deleted_amended_witness :
    getPushChanges
        (PushEvent.mk [PushCommit.mk (some "c1")] "b" "a" false true)
        (fun _ => "p") (fun _ _ => [demoChange])
      = PushFetchResult.mk [] 0 0 :=
  c6_deleted_amended _ _ _ rfl (by decide) (by decide) rfl

/-- C10: a push event with an empty commit list returns the empty change
list immediately, with zero compare-refs calls and zero single-commit
lookups, regardless of the `before`, `after`, `created` and `deleted`
fields. -/
theorem c10_empty_commits (e : PushEvent) (parentOf : String → String)
    (compareFn : String → String → List Change) (h : e.commits = []) :
    getPushChanges e parentOf compareFn = PushFetchResult.mk [] 0 0 := by
  unfold getPushChanges
  rw [if_pos h]

/-- Witness for C10 at a concrete event with every other field set. -/
theorem c10_empty_commits_witness :
    getPushChanges (PushEvent.mk [] "b" "a" true true) (fun _ => "p")
        (fun _ _ => [demoChange])
      = PushFetchResult.mk [] 0 0 :=
  c10_empty_commits _ _ _ rfl

/-- C7 counterexample: the full-width period `。` is not in the ordered-list
marker class, so a line beginning with digits and a full-width period is
not collected; the claimed result would also contain the remainder of that
line. -/
theorem c7_fullwidth_period_counterexample :
    splitReviewToComments "- a\n1。b" = ["a"] ∧
    (["a"] : List String) ≠ ["a", "b"] := by
  constructor
  · decide
  · decide

/-- C7 amended: when at least one line of the score-truncated text matches
a bullet marker (dash, star or plus followed by whitespace) or an
ordered-list marker (digits followed by an ASCII period, the ideographic
comma `、`, or a closing parenthesis — the full-width period `。` is NOT
recognized), the result is exactly the stripped captured remainders of
every matching line in document order, and non-matching lines contribute
nothing.  The concrete captures illustrate the marker class. -/
theorem c7_bullet_extraction_amended :
    (∀ r, (∃ l ∈ splitLinesStripped (scoreTruncate (stripAutoHeader (pyStrip r))),
        lineCapture l ≠ none) →
      splitReviewToComments r
        = (splitLinesStripped (scoreTruncate (stripAutoHeader (pyStrip r)))).filterMap
            lineCapture) ∧
    lineCapture "1.b" = some "b" ∧
    lineCapture "1、b" = some "b" ∧
    lineCapture "1)b" = some "b" ∧
    lineCapture "12、 b c" = some "b c" ∧
    lineCapture "1。b" = none ∧
    lineCapture "- b" = some "b" ∧
    lineCapture "* b" = some "b" ∧
    lineCapture "+ b" = some "b" ∧
    lineCapture "-b" = none ∧
    lineCapture "plain" = none := by
  refine ⟨?_, by decide, by decide, by decide, by decide, by decide, by decide, by decide,
    by decide, by decide, by decide⟩
  rintro r ⟨l, hl, hcapne⟩
  by_cases hr : r = ""
  · exfalso
    rw [hr] at hl
    rw [show splitLinesStripped (scoreTruncate (stripAutoHeader (pyStrip "")))
        = [] from by decide] at hl
    exact List.not_mem_nil l hl
  · by_cases ht : stripAutoHeader (pyStrip r) = ""
    · exfalso
      rw [ht] at hl
      rw [show splitLinesStripped (scoreTruncate "") = [] from by decide] at hl
      exact List.not_mem_nil l hl
    · unfold splitReviewToComments
      rw [if_neg hr, if_neg ht]
      have hne2 : (splitLinesStripped (scoreTruncate (stripAutoHeader
          (pyStrip r)))).filterMap lineCapture ≠ [] := by
        intro h0
        exact hcapne ((List.filterMap_eq_nil_iff.mp h0) l hl)
      rw [if_pos hne2]

/-- Witness for the amended C7 at a concrete two-line review. -/
theorem c7_bullet_extraction_amended_witness :
    splitReviewToComments "- a\n1、b"
      = (splitLinesStripped (scoreTruncate (stripAutoHeader
          (pyStrip "- a\n1、b")))).filterMap lineCapture ∧
    splitReviewToComments "- a\n1、b" = ["a", "b"] :=
  ⟨c7_bullet_extraction_amended.1 "- a\n1、b" (by decide), by decide⟩

theorem splitOnNl_no_nl (cs : List Char) :
    ∀ acc, (∀ c ∈ cs, c ≠ '\n') → splitOnNl cs acc = [acc.reverse ++ cs] := by
  induction cs with
  | nil => intro acc _; simp [splitOnNl]
  | cons c rest ih =>
    intro acc hnl
    have hc : c ≠ '\n' := hnl c (List.mem_cons_self c rest)
    rw [splitOnNl, if_neg hc, ih (c :: acc) (fun d hd => hnl d (List.mem_cons_of_mem c hd))]
    simp

theorem pySplitLines_single (s : String) (hne : s.toList ≠ [])
    (hnl : ∀ c ∈ s.toList, c ≠ '\n') : pySplitLines s = [s] := by
  unfold pySplitLines pySplitLinesL
  cases hcs : s.toList with
  | nil => exact absurd hcs hne
  | cons c rest =>
    have hnl' : ∀ d ∈ c :: rest, d ≠ '\n' := by rw [← hcs]; exact hnl
    have hlast : ¬ ((c :: rest).getLast? = some '\n') := by
      intro hsome
      obtain ⟨hx, heq⟩ := List.mem_getLast?_eq_getLast (l := c :: rest) (x := '\n') hsome
      exact hnl' '\n' (heq ▸ List.getLast_mem hx) rfl
    rw [splitOnNl_no_nl (c :: rest) [] hnl', if_neg hlast]
    rw [List.map_cons, List.map_nil,
      show (([] : List Char).reverse ++ (c :: rest)) = c :: rest from by simp, ← hcs]
    rfl

theorem splitBlankSepFuel_no_nl (cs : List Char) :
    ∀ fuel acc, cs.length ≤ fuel → (∀ c ∈ cs, c ≠ '\n') →
      splitBlankSepFuel fuel cs acc = [acc.reverse ++ cs] := by
  induction cs with
  | nil =>
    intro fuel acc _ _
    cases fuel with
    | zero => rfl
    | succ f => simp [splitBlankSepFuel]
  | cons c rest ih =>
    intro fuel acc hfuel hnl
    cases fuel with
    | zero => simp at hfuel
    | succ f =>
      have hc : c ≠ '\n' := hnl c (List.mem_cons_self c rest)
      rw [splitBlankSepFuel, if_neg hc,
        ih f (c :: acc) (by simp only [List.length_cons] at hfuel; omega)
          (fun d hd => hnl d (List.mem_cons_of_mem c hd))]
      simp

/-- C8 counterexample: splitting is not idempotent on already-split atomic
comments.  The review `- - x` splits to the single atomic comment `- x`
(non-empty, no embedded blank lines), but splitting `- x` again yields
`x`, not `- x`. -/
theorem c8_idempotence_counterexample :
    splitReviewToComments "- - x" = ["- x"] ∧
    splitReviewToComments "- x" = ["x"] ∧
    (["x"] : List String) ≠ ["- x"] := by
  refine ⟨by decide, by decide, by decide⟩

/-- C8 amended: splitting is idempotent on a single-line, non-empty,
already-stripped comment provided the comment does not itself look like
input the splitter transforms: it matches no bullet or ordered-list
marker, does not begin with a hash or with the `Auto Review Result` header,
does not trigger the score-section truncation, is not one of the literal
section titles, and its internal whitespace is already collapsed.  Each
hypothesis is forced by a transformation the splitter applies (the
counterexample exhibits the bullet-marker one). -/
theorem c8_split_idempotent_amended (s : String)
    (hne : s ≠ "")
    (hnl : ∀ c ∈ s.toList, c ≠ '\n')
    (hstrip : pyStrip s = s)
    (hauto : stripAutoHeader s = s)
    (hscore : findScoreCut s = none)
    (hcap : lineCapture s = none)
    (hhash : strStarts s "#" = false)
    (htitle : sectionTitles.contains s = false)
    (hcollapse : collapseWs s.toList = s.toList) :
    splitReviewToComments s = [s] := by
  have hlistne : s.toList ≠ [] := by
    intro h0
    exact hne (String.ext h0)
  have hstrip' : pyStripList s.toList = s.toList := congrArg String.data hstrip
  have hst : scoreTruncate s = s := by
    unfold scoreTruncate
    rw [hscore]
  have hlines : splitLinesStripped s = [s] := by
    unfold splitLinesStripped
    rw [pySplitLines_single s hlistne hnl, List.map_cons, List.map_nil, hstrip]
    simp [hne]
  have hfm : (splitLinesStripped (scoreTruncate (stripAutoHeader (pyStrip s)))).filterMap
      lineCapture = [] := by
    rw [hstrip, hauto, hst, hlines]
    simp [hcap]
  have hsbs : splitBlankSep s.toList = [s.toList] := by
    unfold splitBlankSep
    rw [splitBlankSepFuel_no_nl s.toList (s.toList.length + 1) [] (by omega) hnl]
    rfl
  have hbc : blockComment s.toList = some s := by
    unfold blockComment
    rw [hstrip']
    rw [show String.mk s.toList = s from rfl]
    rw [if_neg hne, if_neg (by rw [hhash]; exact Bool.false_ne_true),
      if_neg (by rw [htitle]; exact Bool.false_ne_true), hcollapse]
    rfl
  rw [hstrip, hauto] at hfm
  unfold splitReviewToComments
  rw [if_neg hne, hstrip, hauto, if_neg hne, if_neg (fun hx => hx hfm), hst]
  unfold blockComments
  rw [hsbs, List.filterMap_cons, hbc]
  rfl

/-- Witness for the amended C8: a plain one-line comment splits to itself. -/
theorem c8_split_idempotent_amended_witness :
    splitReviewToComments "hello world" = ["hello world"] :=
  c8_split_idempotent_amended "hello world" (by decide) (by decide) (by decide)
    (by decide) (by decide) (by decide) (by decide) (by decide) (by decide)

/-- C9 counterexample: the cap is `max(1, configured)` — with the valid
configured integer 0 and two split comments, one comment is still kept,
so "at most 0 comments" fails. -/
theorem c9_cap_counterexample :
    pyParseInt "0" = some 0 ∧
    cappedComments "- a\n- b" (some "0") = ["a"] ∧
    ¬ ((cappedComments "- a\n- b" (some "0")).length ≤ 0) := by
  refine ⟨by decide, by decide, by decide⟩

/-- C9 amended: with a valid configured integer `n`, the comment list is
truncated to `max 1 n` entries (so at most `n` whenever `n ≥ 1`; a
configured value below one still keeps one comment) — the excess is
dropped, not deferred; when the configuration is absent or not a valid
integer, the default of 20 is used. -/
theorem c9_cap_amended :
    (∀ r env n, pyParseInt (env.getD "20") = some n →
      cappedComments r env = (commentsWithDefault r).take (max 1 n).toNat ∧
      (cappedComments r env).length ≤ (max 1 n).toNat) ∧
    (∀ r env, pyParseInt (env.getD "20") = none →
      cappedComments r env = (commentsWithDefault r).take 20) ∧
    (∀ r, cappedComments r none = (commentsWithDefault r).take 20) := by
  refine ⟨?_, ?_, ?_⟩
  · intro r env n hp
    have he : cappedComments r env = (commentsWithDefault r).take (max 1 n).toNat := by
      unfold cappedComments
      rw [hp]
      rfl
    refine ⟨he, ?_⟩
    rw [he, List.length_take]
    exact min_le_left _ _
  · intro r env hp
    unfold cappedComments
    rw [hp, show (max 1 ((none : Option Int).getD 20)).toNat = 20 from by decide]
  · intro r
    unfold cappedComments
    rw [show (max 1 ((pyParseInt ((none : Option String).getD "20")).getD 20)).toNat
        = 20 from by decide]

/-- Witness for the amended C9: configured maximum 1 keeps exactly the
first of two comments. -/
theorem c9_cap_amended_witness :
    pyParseInt ((some "1" : Option String).getD "20") = some 1 ∧
    cappedComments "- a\n- b" (some "1")
      = (commentsWithDefault "- a\n- b").take (max 1 (1 : Int)).toNat ∧
    (cappedComments "- a\n- b" (some "1")).length ≤ (max 1 (1 : Int)).toNat :=
  ⟨by decide,
    (c9_cap_amended.1 "- a\n- b" (some "1") 1 (by decide)).1,
    (c9_cap_amended.1 "- a\n- b" (some "1") 1 (by decide)).2⟩

end AICodeReview
